import Mathlib

/-!
Verification of the CDN repository (an HTTP cache-proxy, `httpserver.py`, and a
DNS responder, `dnsserver.py`) against its natural-language specification.

The Python sources are shallowly embedded below:
* byte strings are `List Nat`;
* the cache dictionary `self.CACHE` is an insertion-ordered association list
  `Cache` (Python dicts preserve insertion order; assignment to an existing key
  replaces its value in place);
* the external library calls `zlib.compress` / `zlib.decompress` and
  `sys.getsizeof` are parameters of the model (`Codec`, `SizeModel`): they are
  outside this repository, so theorems quantify over them or, where a concrete
  instance is needed, use an explicit instantiation;
* an origin fetch `requests.get` either raises (`OriginResult.exc`) or returns
  a status code plus a body (`OriginResult.resp`); a raised exception is
  modelled by `Except.error ()` in the functions that do not catch it;
* the per-request handler `do_GET` is modelled as the trace of externally
  visible actions it performs (cache lookups, origin fetches, responses sent).
-/

/-- Byte strings (`bytes` in Python): lists of byte values. -/
abbrev Bytes := List Nat

/-- The cache dictionary `self.CACHE : dict`, as an insertion-ordered
association list from content key to compressed payload. -/
abbrev Cache := List (String × Bytes)

/-- The `zlib` compression pair used at lines 69 and 156 of `httpserver.py`.
`zlib` is an external library, so the pair is a model parameter; the round-trip
law `decompress (compress b) = b` is taken as a hypothesis where needed. -/
structure Codec where
  compress : Bytes → Bytes
  decompress : Bytes → Bytes

/-- The result of `requests.get` for a key: either a raised exception
(connectivity failure) or a response with a status code and a byte body. -/
inductive OriginResult where
  | exc : OriginResult
  | resp (status : Nat) (body : Bytes) : OriginResult
deriving DecidableEq

/-- `sys.getsizeof` is CPython-specific; the model abstracts the per-object
sizes that matter for the (flat) cache dictionary: the size of the dict
container as a function of its entry count, the size of a key string, and the
size of a bytes object as a function of its byte length. -/
structure SizeModel where
  dictSize : Nat → Nat
  strSize : String → Nat
  bytesSize : Nat → Nat

/-- `CACHE_LIMIT: int = 20000000` (line 13 of `httpserver.py`). -/
def CACHE_LIMIT : Nat := 20000000

/-- Python dict assignment `CACHE[query] = value`: replace in place if the key
is present, otherwise append at the end (dicts preserve insertion order). -/
def cacheInsert : Cache → String → Bytes → Cache
  | [], k, v => [(k, v)]
  | (k', v') :: rest, k, v =>
    if k' = k then (k, v) :: rest else (k', v') :: cacheInsert rest k v

/-- Python `CACHE.get(query)` / `query in CACHE.keys()`: first binding of the
key, if any. -/
def cacheFind : Cache → String → Option Bytes
  | [], _ => none
  | (k', v') :: rest, k => if k' = k then some v' else cacheFind rest k

/-- The value of `self.get_cache_size(self.CACHE)` on the live cache
dictionary: the size of the dict container plus, for every entry, the size of
its key string and of its value bytes object.  This is the recursive size
walker of lines 78-107 specialised to the actual shape of `self.CACHE` (a dict
whose keys are fresh strings and whose values are fresh bytes objects, all
with distinct identities); the theorem `get_cache_size_cacheHeap` below proves
this specialisation against the full walker. -/
def cacheSize (sm : SizeModel) (c : Cache) : Nat :=
  sm.dictSize c.length +
    (c.map (fun kv => sm.strSize kv.1 + sm.bytesSize kv.2.length)).sum

/-- The loop body of `CacheManager.load_popularity_data` (lines 56-76 of
`httpserver.py`), iterating over the first CSV column of the popularity dump:

* outer guard (line 58): only if `get_cache_size(CACHE) < CACHE_LIMIT` is the
  key fetched at all; otherwise the iteration continues with the next key;
* the origin fetch (line 64) is not wrapped in any try/except, so a raised
  exception (`OriginResult.exc`) propagates and aborts the whole loader
  (`Except.error ()`);
* a non-200 status (line 67) skips the key and continues;
* the break check (line 72): if the measured cache size plus the byte length
  of the compressed payload exceeds `CACHE_LIMIT`, `break` ends the whole
  loop, returning the cache as built so far;
* otherwise the compressed payload is stored (line 76). -/
def loadLoop (sm : SizeModel) (cd : Codec) (origin : String → OriginResult) :
    List String → Cache → Except Unit Cache
  | [], c => .ok c
  | k :: ks, c =>
    if cacheSize sm c < CACHE_LIMIT then
      match origin k with
      | .exc => .error ()
      | .resp status body =>
        if status = 200 then
          let comp := cd.compress body
          if cacheSize sm c + comp.length > CACHE_LIMIT then .ok c
          else loadLoop sm cd origin ks (cacheInsert c k comp)
        else loadLoop sm cd origin ks c
    else loadLoop sm cd origin ks c

/-- `CacheManager.load_popularity_data`: run the loading loop on the ordered
key list, starting from the empty cache set up in `__init__` (line 36). -/
def load_popularity_data (sm : SizeModel) (cd : Codec)
    (origin : String → OriginResult) (keys : List String) : Except Unit Cache :=
  loadLoop sm cd origin keys []

/-- Instrumented variant of `loadLoop` that additionally reports whether the
loop ended through the `break` at line 73 (`true`) or by exhausting the key
list (`false`).  `loadLoop_eq_loadLoopB` relates the two. -/
def loadLoopB (sm : SizeModel) (cd : Codec) (origin : String → OriginResult) :
    List String → Cache → Except Unit (Cache × Bool)
  | [], c => .ok (c, false)
  | k :: ks, c =>
    if cacheSize sm c < CACHE_LIMIT then
      match origin k with
      | .exc => .error ()
      | .resp status body =>
        if status = 200 then
          let comp := cd.compress body
          if cacheSize sm c + comp.length > CACHE_LIMIT then .ok (c, true)
          else loadLoopB sm cd origin ks (cacheInsert c k comp)
        else loadLoopB sm cd origin ks c
    else loadLoopB sm cd origin ks c

/-! ## The HTTP request handler `CDNHTTPRequestHandler.do_GET` -/

/-- Python `str.split(sep)` for a single-character separator, on the character
list of the string.  Never returns the empty list. -/
def splitChar (sep : Char) : List Char → List (List Char)
  | [] => [[]]
  | c :: rest =>
    match splitChar sep rest with
    | [] => [[]]
    | grp :: grps =>
      if c = sep then [] :: grp :: grps else (c :: grp) :: grps

/-- `self.path.split('/')` (lines 145 and 150 of `httpserver.py`). -/
def pathSegments (p : String) : List String :=
  (splitChar '/' p.data).map (fun g => String.mk g)

/-- `self.path.split('/')[-1]`: the derived content key.  `split` never
returns an empty list, so the default is never used. -/
def lastSegment (p : String) : String :=
  (pathSegments p).getLastD ""

/-- `str.encode()` of an ASCII string: its character codes as bytes. -/
def strBytes (s : String) : Bytes := s.data.map Char.toNat

/-- The literal written to the response stream by the beacon branch
(line 142 of `httpserver.py`). -/
def beaconMsg : String := "Response code: NO CONTENT(204)"

/-- Externally visible actions of one `do_GET` invocation, in order. -/
inductive HAction where
  | cacheLookup (key : String) : HAction
  | originGet (key : String) : HAction
  | sendResponse (code : Nat) (body : Bytes) : HAction
  | sendError (code : Nat) : HAction
  | raised : HAction
deriving DecidableEq

/-- Lines 150-191 of `httpserver.py`: the part of `do_GET` after path
validation, acting on the derived content key `query`:
cache membership test, then either the hit branch (200 with the decompressed
cached payload) or the miss branch (origin fetch; a raised
`requests.exceptions.RequestException` is re-raised by the handler at
line 194, modelled by `HAction.raised`; non-200 yields `send_error(404)`;
200 relays the origin body unchanged). -/
def afterValidation (cd : Codec) (query : String) (cache : Cache)
    (origin : String → OriginResult) : List HAction :=
  HAction.cacheLookup query ::
    match cacheFind cache query with
    | some cached => [HAction.sendResponse 200 (cd.decompress cached)]
    | none =>
      HAction.originGet query ::
        match origin query with
        | .exc => [HAction.raised]
        | .resp status body =>
          if status ≠ 200 then [HAction.sendError 404]
          else [HAction.sendResponse 200 body]

/-- `CDNHTTPRequestHandler.do_GET` (lines 115-194 of `httpserver.py`) as the
trace of its externally visible actions:

* `self.path == '/grading/beacon'` (line 135): a 204 response whose body is
  the bytes of `beaconMsg` (line 142) — nothing else happens;
* otherwise, if `len(self.path.split('/')) > 2` (line 145), a 400 error
  response is sent, and — since there is no `return` or `else` — execution
  falls through to the key derivation and lookup in every case. -/
def do_GET (cd : Codec) (path : String) (cache : Cache)
    (origin : String → OriginResult) : List HAction :=
  if path = "/grading/beacon" then
    [HAction.sendResponse 204 (strBytes beaconMsg)]
  else
    (if (pathSegments path).length > 2 then [HAction.sendError 400] else [])
      ++ afterValidation cd (lastSegment path) cache origin

/-! ## The DNS responder `dnsserver.py` -/

/-- A parsed DNS question: dot-terminated name, type code (1 = A record),
class. -/
structure DNSQuestionM where
  qname : String
  qtype : Nat
  qclass : Nat
deriving DecidableEq

/-- A parsed incoming DNS query (`DNSRecord.parse(data)`): the header id and
the single question.  Parsing of the wire format is performed by the external
`dnslib` library and is not part of this repository. -/
structure DNSQueryM where
  msgId : Nat
  q : DNSQuestionM
deriving DecidableEq

/-- The response record built at lines 49-56 of `dnsserver.py`: header id
copied from the query, flags `qr=1, aa=1, ra=1`, the question copied
field-by-field, and a single answer `RR(qname, rdata=A(addr[0]))` binding the
queried name to the source address of the datagram. `response.pack()` is
`dnslib` serialisation, treated as a faithful container for these fields. -/
structure DNSResponseM where
  msgId : Nat
  qr : Nat
  aa : Nat
  ra : Nat
  q : DNSQuestionM
  ansName : String
  ansAddr : String
deriving DecidableEq

/-- Python `str(question_name)[:-1]`: drop the last character (the trailing
dot of the domain name). -/
def strDropLast (s : String) : String := String.mk s.data.dropLast

/-- `DNSServer.parse_dig_query` (lines 32-59 of `dnsserver.py`): build the
response unconditionally, but return it (packed) only when the question type
is 1 (A record) and the question name minus its trailing terminator equals
the configured service name `self.NAME`; otherwise the function falls off the
end and returns `None`. -/
def parse_dig_query (NAME : String) (query : DNSQueryM) (srcAddr : String) :
    Option DNSResponseM :=
  let response : DNSResponseM :=
    { msgId := query.msgId, qr := 1, aa := 1, ra := 1
      q := ⟨query.q.qname, query.q.qtype, query.q.qclass⟩
      ansName := query.q.qname
      ansAddr := srcAddr }
  if query.q.qtype = 1 ∧ strDropLast query.q.qname = NAME then some response
  else none

/-- One iteration of the serving loop `DNSServer.run` (lines 77-83 of
`dnsserver.py`) for a successfully parsed datagram: the loop body calls
`parse_dig_query` and then unconditionally calls
`self.udp_socket.sendto(dig_response, addr)`.  When `parse_dig_query`
returned `None`, `sendto(None, addr)` raises `TypeError`; the exception is
uncaught, so the loop (and the process) dies — modelled by `Except.error ()`.
Otherwise the packed response is sent to the client. -/
def runStep (NAME : String) (query : DNSQueryM) (srcAddr : String) :
    Except Unit DNSResponseM :=
  match parse_dig_query NAME query srcAddr with
  | some r => .ok r
  | none => .error ()

/-! ## The recursive size walker `CacheManager.get_cache_size`

Lines 78-107 of `httpserver.py` compute the in-memory size of an arbitrary
Python object graph.  The graph is embedded explicitly: every Python object is
an identity (a `Nat`, standing for `id(obj)`), and a `PyHeap` records, for the
identities that carry structure, what kind of object lives there, together
with the `sys.getsizeof` base size of every identity.  Identities absent from
the heap are plain non-container objects.  This makes shared and
self-referential structure (an object reachable through several paths, or a
dict containing itself) directly expressible. -/

/-- The object shapes distinguished by `get_cache_size`:
* `pdict entries` — a `dict`: list of (key identity, value identity) pairs
  (the `isinstance(obj, dict)` branch, lines 97-99);
* `piter elems dvals` — a non-dict iterable that is not `str`/`bytes`/
  `bytearray` (lines 100-103): element identities, plus the identity of
  `obj.__dict__.values()` when the object also has a `__dict__`;
* `pinst dictId` — a non-iterable object with a `__dict__` (lines 104-105):
  the identity of its `__dict__`;
* `patom` — anything else (strings, bytes, numbers, ...): only its own
  `sys.getsizeof` contributes. -/
inductive PyObj where
  | pdict (entries : List (Nat × Nat)) : PyObj
  | piter (elems : List Nat) (dvals : Option Nat) : PyObj
  | pinst (dictId : Nat) : PyObj
  | patom : PyObj
deriving DecidableEq

/-- An object graph: the structured objects by identity (first binding wins,
as for `id`), and the `sys.getsizeof` base size of every identity. -/
structure PyHeap where
  objs : List (Nat × PyObj)
  sizeof : Nat → Nat

/-- Look an identity up in the heap; identities not listed are plain
non-container objects. -/
def heapLookup (h : PyHeap) (i : Nat) : Option PyObj :=
  match h.objs.find? (fun p => p.1 = i) with
  | some p => some p.2
  | none => none

/-- The body of `get_cache_size(obj, seen)` (lines 87-107), with the mutable
`seen` set threaded through explicitly (the Python `seen` is one shared set,
mutated by every recursive call) and a structural fuel argument standing for
the call depth.  Each recursive call into a child object runs at one less
fuel; `walkSize_fuel_stable` below proves that any fuel beyond the number of
heap objects yields the same result, so the fuel is not observable:
the function it defines is the total function computed by the Python code.

Per call: `size = sys.getsizeof(obj)` (line 87); an identity already in
`seen` returns 0 at once (lines 91-92); otherwise the identity is added to
`seen` *before* the recursion (line 96) and the children are walked in the
source's order (dict values, then dict keys; iterable elements, then the
`__dict__.values()` object; the `__dict__` of a plain instance). -/
def walkSize (h : PyHeap) : Nat → Nat → List Nat → Nat × List Nat
  | 0, _, seen => (0, seen)
  | fuel + 1, i, seen =>
    if i ∈ seen then (0, seen)
    else
      match heapLookup h i with
      | some (PyObj.pdict es) =>
        let p1 := (es.map Prod.snd).foldl
          (fun acc j =>
            let r := walkSize h fuel j acc.2
            (acc.1 + r.1, r.2)) (0, i :: seen)
        let p2 := (es.map Prod.fst).foldl
          (fun acc j =>
            let r := walkSize h fuel j acc.2
            (acc.1 + r.1, r.2)) (0, p1.2)
        (h.sizeof i + p1.1 + p2.1, p2.2)
      | some (PyObj.piter xs dv) =>
        let p1 := xs.foldl
          (fun acc j =>
            let r := walkSize h fuel j acc.2
            (acc.1 + r.1, r.2)) (0, i :: seen)
        match dv with
        | none => (h.sizeof i + p1.1, p1.2)
        | some d =>
          let p2 := walkSize h fuel d p1.2
          (h.sizeof i + p1.1 + p2.1, p2.2)
      | some (PyObj.pinst d) =>
        let p1 := walkSize h fuel d (i :: seen)
        (h.sizeof i + p1.1, p1.2)
      | some PyObj.patom => (h.sizeof i, i :: seen)
      | none => (h.sizeof i, i :: seen)

/-- The sequential walk over a list of child identities, threading the shared
`seen` set (the Python list comprehensions at lines 98, 99, 101). -/
def walkAcc (h : PyHeap) (fuel : Nat) (ids : List Nat) (seen : List Nat) :
    Nat × List Nat :=
  ids.foldl
    (fun acc j =>
      let r := walkSize h fuel j acc.2
      (acc.1 + r.1, r.2)) (0, seen)

/-- `get_cache_size(obj)` with `seen = None`: run the walker with enough fuel
for the whole heap (one more than the number of structured objects; by
`walkSize_fuel_stable` any larger fuel gives the same value). -/
def get_cache_size (h : PyHeap) (i : Nat) : Nat :=
  (walkSize h (h.objs.length + 1) i []).1

/-! ### Walker lemmas: the walk visits each identity at most once, and any
fuel beyond the heap size yields the same result (termination). -/

/-- Restating `walkSize` at successor fuel through `walkAcc`. -/
theorem walkSize_succ (h : PyHeap) (fuel i : Nat) (seen : List Nat) :
    walkSize h (fuel + 1) i seen =
      if i ∈ seen then (0, seen)
      else
        match heapLookup h i with
        | some (PyObj.pdict es) =>
          let p1 := walkAcc h fuel (es.map Prod.snd) (i :: seen)
          let p2 := walkAcc h fuel (es.map Prod.fst) p1.2
          (h.sizeof i + p1.1 + p2.1, p2.2)
        | some (PyObj.piter xs dv) =>
          let p1 := walkAcc h fuel xs (i :: seen)
          match dv with
          | none => (h.sizeof i + p1.1, p1.2)
          | some d =>
            let p2 := walkSize h fuel d p1.2
            (h.sizeof i + p1.1 + p2.1, p2.2)
        | some (PyObj.pinst d) =>
          let p1 := walkSize h fuel d (i :: seen)
          (h.sizeof i + p1.1, p1.2)
        | some PyObj.patom => (h.sizeof i, i :: seen)
        | none => (h.sizeof i, i :: seen) := rfl

/-- Shifting the accumulator of the sequential walk. -/
theorem walkAcc_shift (h : PyHeap) (f : Nat) :
    ∀ (js : List Nat) (a : Nat) (s : List Nat),
      js.foldl
          (fun acc j =>
            let r := walkSize h f j acc.2
            (acc.1 + r.1, r.2)) (a, s)
        = (a + (walkAcc h f js s).1, (walkAcc h f js s).2)
  | [], a, s => by simp [walkAcc]
  | j :: js, a, s => by
    simp only [walkAcc, List.foldl_cons]
    rw [walkAcc_shift h f js, walkAcc_shift h f js]
    simp [Nat.add_assoc]

theorem walkAcc_cons (h : PyHeap) (f j : Nat) (js : List Nat) (s : List Nat) :
    walkAcc h f (j :: js) s =
      ((walkSize h f j s).1 + (walkAcc h f js (walkSize h f j s).2).1,
        (walkAcc h f js (walkSize h f j s).2).2) := by
  simp only [walkAcc, List.foldl_cons]
  rw [walkAcc_shift h f js]
  simp [walkAcc]

/-- Shape of a walk result: the returned size is the sum of the base sizes of
a duplicate-free list of newly visited identities, none of which was in the
incoming `seen` set, and the returned `seen` set is exactly the new
identities prepended to the old ones.  This is the no-double-counting
property: every identity contributes its `sys.getsizeof` at most once. -/
def WalkOut (h : PyHeap) (seen : List Nat) (res : Nat × List Nat) : Prop :=
  ∃ new : List Nat,
    res = ((new.map h.sizeof).sum, new ++ seen) ∧ new.Nodup ∧
      ∀ j ∈ new, j ∉ seen

theorem walkOut_zero (h : PyHeap) (seen : List Nat) : WalkOut h seen (0, seen) :=
  ⟨[], by simp, by simp, by simp⟩

theorem walkOut_atom (h : PyHeap) (seen : List Nat) (i : Nat) (hi : i ∉ seen) :
    WalkOut h seen (h.sizeof i, i :: seen) :=
  ⟨[i], by simp, by simp, by simp [hi]⟩

theorem walkOut_seq (h : PyHeap) (seen : List Nat) (r1 r2 : Nat × List Nat)
    (h1 : WalkOut h seen r1) (h2 : WalkOut h r1.2 r2) :
    WalkOut h seen (r1.1 + r2.1, r2.2) := by
  obtain ⟨n1, e1, nd1, d1⟩ := h1
  subst e1
  obtain ⟨n2, e2, nd2, d2⟩ := h2
  subst e2
  refine ⟨n2 ++ n1, ?_, ?_, ?_⟩
  · simp [Nat.add_comm]
  · rw [List.nodup_append]
    refine ⟨nd2, nd1, ?_⟩
    intro a ha ha'
    exact d2 a ha (by simp [ha'])
  · intro j hj
    rcases List.mem_append.1 hj with hj2 | hj1
    · intro hs
      exact d2 j hj2 (by simp [hs])
    · exact d1 j hj1

theorem walkAcc_out (h : PyHeap) (f : Nat)
    (IH : ∀ (i : Nat) (seen : List Nat), WalkOut h seen (walkSize h f i seen)) :
    ∀ (ids : List Nat) (seen : List Nat), WalkOut h seen (walkAcc h f ids seen)
  | [], seen => walkOut_zero h seen
  | j :: js, seen => by
    rw [walkAcc_cons]
    exact walkOut_seq _ _ _ _ (IH j seen) (walkAcc_out h f IH js _)

theorem walkSize_out (h : PyHeap) :
    ∀ (f i : Nat) (seen : List Nat), WalkOut h seen (walkSize h f i seen)
  | 0, _, seen => walkOut_zero h seen
  | f + 1, i, seen => by
    rw [walkSize_succ]
    by_cases hi : i ∈ seen
    · simp only [hi, if_true]
      exact walkOut_zero h seen
    · simp only [hi, if_false]
      have hIH : ∀ (i' : Nat) (s' : List Nat), WalkOut h s' (walkSize h f i' s') :=
        fun i' s' => walkSize_out h f i' s'
      rcases hl : heapLookup h i with _ | o
      · exact walkOut_atom h seen i hi
      · rcases o with es | ⟨xs, dv⟩ | d | _
        · have h0 := walkOut_atom h seen i hi
          have h1 := walkAcc_out h f hIH (es.map Prod.snd) (i :: seen)
          have h2 := walkAcc_out h f hIH (es.map Prod.fst)
            (walkAcc h f (es.map Prod.snd) (i :: seen)).2
          have := walkOut_seq _ _ _ _ h0 (walkOut_seq _ _ _ _ h1 h2)
          simpa [Nat.add_assoc] using this
        · rcases dv with _ | d
          · have h0 := walkOut_atom h seen i hi
            have h1 := walkAcc_out h f hIH xs (i :: seen)
            exact walkOut_seq _ _ _ _ h0 h1
          · have h0 := walkOut_atom h seen i hi
            have h1 := walkAcc_out h f hIH xs (i :: seen)
            have h2 := hIH d (walkAcc h f xs (i :: seen)).2
            have := walkOut_seq _ _ _ _ h0 (walkOut_seq _ _ _ _ h1 h2)
            simpa [Nat.add_assoc] using this
        · have h0 := walkOut_atom h seen i hi
          have h1 := hIH d (i :: seen)
          exact walkOut_seq _ _ _ _ h0 h1
        · exact walkOut_atom h seen i hi

/-- The number of structured heap identities not yet visited: the measure
that shrinks as `seen` grows, bounding the real recursion depth. -/
def unvisited (h : PyHeap) (seen : List Nat) : Nat :=
  ((h.objs.map Prod.fst).filter (fun j => decide (j ∉ seen))).length

theorem unvisited_mono (h : PyHeap) (s t : List Nat)
    (hsub : ∀ j, j ∈ s → j ∈ t) : unvisited h t ≤ unvisited h s := by
  refine List.Sublist.length_le (List.monotone_filter_right _ ?_)
  intro a ha
  simp only [decide_eq_true_eq] at ha ⊢
  exact fun hmem => ha (hsub a hmem)

theorem unvisited_append (h : PyHeap) (new seen : List Nat) :
    unvisited h (new ++ seen) ≤ unvisited h seen :=
  unvisited_mono h seen (new ++ seen) (fun _ hj => List.mem_append_right new hj)

theorem filter_cons_lt (i : Nat) (s : List Nat) :
    ∀ l : List Nat, i ∈ l → i ∉ s →
      (l.filter (fun j => decide (j ∉ i :: s))).length <
        (l.filter (fun j => decide (j ∉ s))).length := by
  intro l
  induction l with
  | nil => intro hmem; exact absurd hmem (List.not_mem_nil i)
  | cons a l ih =>
    intro hmem hns
    by_cases hai : a = i
    · subst hai
      have h1 : (l.filter (fun j => decide (j ∉ a :: s))).length ≤
          (l.filter (fun j => decide (j ∉ s))).length := by
        refine List.Sublist.length_le (List.monotone_filter_right _ ?_)
        intro b hb
        simp only [decide_eq_true_eq, List.mem_cons] at hb ⊢
        exact fun hbs => hb (Or.inr hbs)
      simp only [List.filter_cons]
      have hmm : (decide (a ∉ a :: s)) = false := by simp
      have hmm2 : (decide (a ∉ s)) = true := by simp [hns]
      rw [hmm, hmm2]
      simpa using Nat.lt_succ_of_le h1
    · have hil : i ∈ l := by
        rcases List.mem_cons.1 hmem with h | h
        · exact absurd h.symm hai
        · exact h
      have hlt := ih hil hns
      by_cases has : a ∈ s
      · simp only [List.filter_cons]
        have hmm : (decide (a ∉ i :: s)) = false := by simp [has]
        have hmm2 : (decide (a ∉ s)) = false := by simp [has]
        rw [hmm, hmm2]
        exact hlt
      · simp only [List.filter_cons]
        have hmm : (decide (a ∉ i :: s)) = true := by
          simp [has, hai]
        have hmm2 : (decide (a ∉ s)) = true := by simp [has]
        rw [hmm, hmm2]
        simpa using hlt

theorem unvisited_cons_lt (h : PyHeap) (i : Nat) (seen : List Nat)
    (hmem : i ∈ h.objs.map Prod.fst) (hns : i ∉ seen) :
    unvisited h (i :: seen) < unvisited h seen :=
  filter_cons_lt i seen _ hmem hns

theorem heapLookup_mem (h : PyHeap) (i : Nat) (o : PyObj)
    (hl : heapLookup h i = some o) : i ∈ h.objs.map Prod.fst := by
  unfold heapLookup at hl
  rcases hf : h.objs.find? (fun p => p.1 = i) with _ | p
  · rw [hf] at hl; exact absurd hl (by simp)
  · have hp : p ∈ h.objs := List.mem_of_find?_eq_some hf
    have he : p.1 = i := by
      have := List.find?_some hf
      simpa using this
    exact he ▸ List.mem_map_of_mem Prod.fst hp

theorem unvisited_le (h : PyHeap) (seen : List Nat) :
    unvisited h seen ≤ h.objs.length := by
  calc unvisited h seen ≤ (h.objs.map Prod.fst).length :=
        List.length_filter_le _ _
    _ = h.objs.length := List.length_map _ _

/-- The output `seen` of a walk extends its input; convenient corollary of
`walkSize_out`. -/
theorem walkSize_seen_extends (h : PyHeap) (f i : Nat) (seen : List Nat) :
    ∃ new, (walkSize h f i seen).2 = new ++ seen := by
  obtain ⟨new, e, -, -⟩ := walkSize_out h f i seen
  exact ⟨new, by rw [e]⟩

theorem walkAcc_seen_extends (h : PyHeap) (f : Nat) (ids seen : List Nat) :
    ∃ new, (walkAcc h f ids seen).2 = new ++ seen := by
  obtain ⟨new, e, -, -⟩ :=
    walkAcc_out h f (fun i s => walkSize_out h f i s) ids seen
  exact ⟨new, by rw [e]⟩

theorem walkAcc_stab_of (h : PyHeap) (f : Nat)
    (IH : ∀ (i : Nat) (seen : List Nat), unvisited h seen < f →
      walkSize h f i seen = walkSize h (f + 1) i seen) :
    ∀ (ids : List Nat) (seen : List Nat), unvisited h seen < f →
      walkAcc h f ids seen = walkAcc h (f + 1) ids seen
  | [], _, _ => rfl
  | j :: js, seen, hu => by
    rw [walkAcc_cons, walkAcc_cons]
    rw [← IH j seen hu]
    obtain ⟨new, hnew⟩ := walkSize_seen_extends h f j seen
    have hu2 : unvisited h (walkSize h f j seen).2 < f := by
      rw [hnew]
      exact Nat.lt_of_le_of_lt (unvisited_append h new seen) hu
    rw [← walkAcc_stab_of h f IH js _ hu2]

theorem walkSize_stab (h : PyHeap) :
    ∀ (f i : Nat) (seen : List Nat), unvisited h seen < f →
      walkSize h f i seen = walkSize h (f + 1) i seen
  | 0, _, _, hu => absurd hu (Nat.not_lt_zero _)
  | f + 1, i, seen, hu => by
    have IH : ∀ (i' : Nat) (s' : List Nat), unvisited h s' < f →
        walkSize h f i' s' = walkSize h (f + 1) i' s' :=
      fun i' s' hu' => walkSize_stab h f i' s' hu'
    rw [walkSize_succ h f, walkSize_succ h (f + 1)]
    by_cases hi : i ∈ seen
    · simp [hi]
    · simp only [hi, if_false]
      rcases hl : heapLookup h i with _ | o
      · rfl
      · have hidom : i ∈ h.objs.map Prod.fst := heapLookup_mem h i o hl
        have hu1 : unvisited h (i :: seen) < f := by
          have := unvisited_cons_lt h i seen hidom hi
          omega
        rcases o with es | ⟨xs, dv⟩ | d | _
        · dsimp only
          rw [← walkAcc_stab_of h f IH (es.map Prod.snd) (i :: seen) hu1]
          obtain ⟨new, hnew⟩ :=
            walkAcc_seen_extends h f (es.map Prod.snd) (i :: seen)
          have hu2 : unvisited h (walkAcc h f (es.map Prod.snd) (i :: seen)).2 < f := by
            rw [hnew]
            exact Nat.lt_of_le_of_lt
              (Nat.le_trans (unvisited_append h new (i :: seen))
                (Nat.le_refl _)) hu1
          rw [← walkAcc_stab_of h f IH (es.map Prod.fst) _ hu2]
        · rcases dv with _ | d
          · dsimp only
            rw [← walkAcc_stab_of h f IH xs (i :: seen) hu1]
          · dsimp only
            rw [← walkAcc_stab_of h f IH xs (i :: seen) hu1]
            obtain ⟨new, hnew⟩ := walkAcc_seen_extends h f xs (i :: seen)
            have hu2 : unvisited h (walkAcc h f xs (i :: seen)).2 < f := by
              rw [hnew]
              exact Nat.lt_of_le_of_lt (unvisited_append h new (i :: seen)) hu1
            rw [← IH d _ hu2]
        · dsimp only
          rw [← IH d (i :: seen) hu1]
        · rfl

/-- Fuel irrelevance: beyond the unvisited count, the walk's result does not
depend on the fuel.  This is the termination statement for the Python
recursion: the visited-identity set bounds the depth on every object graph,
cyclic or shared ones included. -/
theorem walkSize_fuel_stable (h : PyHeap) (f g i : Nat) (seen : List Nat)
    (hf : unvisited h seen < f) (hfg : f ≤ g) :
    walkSize h f i seen = walkSize h g i seen := by
  induction g with
  | zero => omega
  | succ g ih =>
    rcases Nat.lt_or_ge f (g + 1) with hlt | hge
    · have hfg' : f ≤ g := by omega
      rw [ih hfg']
      exact walkSize_stab h g i seen (Nat.lt_of_lt_of_le hf hfg')
    · have : f = g + 1 := by omega
      rw [this]

/-! ### The walker on the actual cache dictionary

`load_popularity_data` calls `get_cache_size(self.CACHE)` on the live cache:
a dict whose keys are fresh string objects and whose values are fresh bytes
objects, all with pairwise distinct identities and no nested structure.
`cacheHeap` builds that object graph explicitly (identity 0 is the dict,
identity `2n+1` the n-th key string, identity `2n+2` the n-th value bytes
object), and `get_cache_size_cacheHeap` proves that the walker computes
exactly the flat formula `cacheSize` used in the loader model. -/

/-- The object graph of the cache dictionary `self.CACHE`. -/
def cacheHeap (sm : SizeModel) (c : Cache) : PyHeap where
  objs := [(0, PyObj.pdict ((List.range c.length).map (fun n => (2 * n + 1, 2 * n + 2))))]
  sizeof := fun j =>
    if j = 0 then sm.dictSize c.length
    else if j % 2 = 1 then
      (c.get? ((j - 1) / 2)).elim 0 (fun kv => sm.strSize kv.1)
    else
      (c.get? ((j - 2) / 2)).elim 0 (fun kv => sm.bytesSize kv.2.length)

theorem cacheHeap_lookup_ne (sm : SizeModel) (c : Cache) (j : Nat) (hj : j ≠ 0) :
    heapLookup (cacheHeap sm c) j = none := by
  unfold heapLookup cacheHeap
  simp [List.find?, Ne.symm hj]

/-- A walk over pairwise-distinct plain (non-container) identities, none
visited yet, just sums their base sizes and pushes them onto `seen`. -/
theorem walkAcc_atoms (h : PyHeap) (f : Nat) :
    ∀ (ids seen : List Nat),
      (∀ j ∈ ids, heapLookup h j = none) → ids.Nodup →
      (∀ j ∈ ids, j ∉ seen) →
      walkAcc h (f + 1) ids seen = ((ids.map h.sizeof).sum, ids.reverse ++ seen)
  | [], seen, _, _, _ => by simp [walkAcc]
  | j :: js, seen, hlk, hnd, hout => by
    rw [walkAcc_cons]
    have hstep : walkSize h (f + 1) j seen = (h.sizeof j, j :: seen) := by
      rw [walkSize_succ]
      rw [if_neg (hout j (by simp))]
      rw [hlk j (by simp)]
    rw [hstep]
    have hnd' : js.Nodup := (List.nodup_cons.1 hnd).2
    have hjns : j ∉ js := (List.nodup_cons.1 hnd).1
    have hout' : ∀ x ∈ js, x ∉ j :: seen := by
      intro x hx
      simp only [List.mem_cons, not_or]
      exact ⟨fun he => hjns (he ▸ hx), hout x (by simp [hx])⟩
    rw [walkAcc_atoms h f js (j :: seen) (fun x hx => hlk x (by simp [hx])) hnd' hout']
    simp

/-- Summing a function of the n-th entry over the index range equals summing
it over the list. -/
theorem sum_range_get {α : Type} (g : α → Nat) :
    ∀ l : List α,
      ((List.range l.length).map (fun n => (l.get? n).elim 0 g)).sum = (l.map g).sum
  | [] => rfl
  | a :: l => by
    rw [List.length_cons, List.range_succ_eq_map, List.map_cons, List.map_map]
    have hcomp : ((fun n => ((a :: l).get? n).elim 0 g) ∘ Nat.succ)
        = (fun n => (l.get? n).elim 0 g) := by
      funext n
      rfl
    rw [hcomp, List.sum_cons, sum_range_get g l]
    simp

/-- The recursive size walker, applied to the object graph of the cache
dictionary, computes exactly the flat cache-size formula: container overhead
plus the size of every key string and of every value bytes object. -/
theorem get_cache_size_cacheHeap (sm : SizeModel) (c : Cache) :
    get_cache_size (cacheHeap sm c) 0 = cacheSize sm c := by
  have hlen : (cacheHeap sm c).objs.length = 1 := rfl
  unfold get_cache_size
  rw [hlen]
  rw [walkSize_succ]
  rw [if_neg (List.not_mem_nil 0)]
  have hl0 : heapLookup (cacheHeap sm c) 0 =
      some (PyObj.pdict ((List.range c.length).map (fun n => (2 * n + 1, 2 * n + 2)))) := by
    unfold heapLookup cacheHeap
    simp [List.find?]
  rw [hl0]
  dsimp only
  set pairs := (List.range c.length).map (fun n => (2 * n + 1, 2 * n + 2)) with hpairs
  have hvals : pairs.map Prod.snd = (List.range c.length).map (fun n => 2 * n + 2) := by
    rw [hpairs, List.map_map]; rfl
  have hkeys : pairs.map Prod.fst = (List.range c.length).map (fun n => 2 * n + 1) := by
    rw [hpairs, List.map_map]; rfl
  have hndv : (pairs.map Prod.snd).Nodup := by
    rw [hvals]
    exact (List.nodup_range _).map (fun a b h => by omega)
  have hndk : (pairs.map Prod.fst).Nodup := by
    rw [hkeys]
    exact (List.nodup_range _).map (fun a b h => by omega)
  have hlkv : ∀ j ∈ pairs.map Prod.snd, heapLookup (cacheHeap sm c) j = none := by
    rw [hvals]
    intro j hj
    simp only [List.mem_map, List.mem_range] at hj
    obtain ⟨n, -, rfl⟩ := hj
    exact cacheHeap_lookup_ne sm c _ (by omega)
  have hlkk : ∀ j ∈ pairs.map Prod.fst, heapLookup (cacheHeap sm c) j = none := by
    rw [hkeys]
    intro j hj
    simp only [List.mem_map, List.mem_range] at hj
    obtain ⟨n, -, rfl⟩ := hj
    exact cacheHeap_lookup_ne sm c _ (by omega)
  have houtv : ∀ j ∈ pairs.map Prod.snd, j ∉ ([0] : List Nat) := by
    rw [hvals]
    intro j hj
    simp only [List.mem_map, List.mem_range] at hj
    obtain ⟨n, -, rfl⟩ := hj
    simp
  rw [walkAcc_atoms (cacheHeap sm c) 0 (pairs.map Prod.snd) [0] hlkv hndv houtv]
  dsimp only
  have hpar : ∀ x ∈ (pairs.map Prod.snd).reverse ++ [0], x % 2 = 0 := by
    intro x hx
    rcases List.mem_append.1 hx with hx | hx
    · rw [List.mem_reverse, hvals] at hx
      simp only [List.mem_map, List.mem_range] at hx
      obtain ⟨n, -, rfl⟩ := hx
      omega
    · simp only [List.mem_singleton] at hx
      omega
  have houtk : ∀ j ∈ pairs.map Prod.fst, j ∉ (pairs.map Prod.snd).reverse ++ [0] := by
    rw [hkeys]
    intro j hj
    simp only [List.mem_map, List.mem_range] at hj
    obtain ⟨n, -, rfl⟩ := hj
    intro hmem
    have := hpar _ hmem
    omega
  rw [walkAcc_atoms (cacheHeap sm c) 0 (pairs.map Prod.fst) _ hlkk hndk houtk]
  dsimp only
  have hsz0 : (cacheHeap sm c).sizeof 0 = sm.dictSize c.length := rfl
  have hsumv : ((pairs.map Prod.snd).map (cacheHeap sm c).sizeof).sum
      = (c.map (fun kv => sm.bytesSize kv.2.length)).sum := by
    rw [hvals, List.map_map]
    have : ((List.range c.length).map ((cacheHeap sm c).sizeof ∘ fun n => 2 * n + 2))
        = (List.range c.length).map
            (fun n => (c.get? n).elim 0 (fun kv => sm.bytesSize kv.2.length)) := by
      refine List.map_congr_left ?_
      intro n _
      show (cacheHeap sm c).sizeof (2 * n + 2) = _
      unfold cacheHeap
      have h1 : ¬ (2 * n + 2 = 0) := by omega
      have h2 : ¬ ((2 * n + 2) % 2 = 1) := by omega
      have h3 : (2 * n + 2 - 2) / 2 = n := by omega
      simp only [h1, if_false, h2, h3]
    rw [this, sum_range_get]
  have hsumk : ((pairs.map Prod.fst).map (cacheHeap sm c).sizeof).sum
      = (c.map (fun kv => sm.strSize kv.1)).sum := by
    rw [hkeys, List.map_map]
    have : ((List.range c.length).map ((cacheHeap sm c).sizeof ∘ fun n => 2 * n + 1))
        = (List.range c.length).map
            (fun n => (c.get? n).elim 0 (fun kv => sm.strSize kv.1)) := by
      refine List.map_congr_left ?_
      intro n _
      show (cacheHeap sm c).sizeof (2 * n + 1) = _
      unfold cacheHeap
      have h1 : ¬ (2 * n + 1 = 0) := by omega
      have h2 : (2 * n + 1) % 2 = 1 := by omega
      have h3 : (2 * n + 1 - 1) / 2 = n := by omega
      simp only [h1, if_false, h2, if_true, h3]
    rw [this, sum_range_get]
  rw [hsz0, hsumv, hsumk]
  unfold cacheSize
  rw [List.sum_map_add]
  omega

/-! ### Loader lemmas -/

theorem cacheFind_insert : ∀ (c : Cache) (k j : String) (v : Bytes),
    cacheFind (cacheInsert c k v) j = if j = k then some v else cacheFind c j
  | [], k, j, v => by
    by_cases h : j = k
    · subst h
      simp [cacheInsert, cacheFind]
    · simp [cacheInsert, cacheFind, h, Ne.symm h]
  | (k', v') :: rest, k, j, v => by
    by_cases hk : k' = k
    · subst hk
      by_cases hj : j = k'
      · subst hj
        simp [cacheInsert, cacheFind]
      · simp [cacheInsert, cacheFind, hj, Ne.symm hj]
    · by_cases hj : k' = j
      · have hjk : ¬ j = k := fun h => hk (hj.symm ▸ h)
        simp [cacheInsert, cacheFind, hk, hj, hjk]
      · simp [cacheInsert, cacheFind, hk, hj, cacheFind_insert rest k j v]

theorem loadLoop_eq_B (sm : SizeModel) (cd : Codec) (og : String → OriginResult) :
    ∀ (ks : List String) (c : Cache),
      loadLoop sm cd og ks c = (loadLoopB sm cd og ks c).map (fun p => p.1)
  | [], _ => rfl
  | k :: ks, c => by
    simp only [loadLoop, loadLoopB]
    by_cases h1 : cacheSize sm c < CACHE_LIMIT
    · simp only [h1, if_true]
      cases og k with
      | exc => rfl
      | resp s b =>
        by_cases h2 : s = 200
        · subst h2
          by_cases h3 : cacheSize sm c + (cd.compress b).length > CACHE_LIMIT
          · simp [h3, Except.map]
          · simp only [if_true, h3, if_false]
            exact loadLoop_eq_B sm cd og ks _
        · simp only [h2, if_false]
          exact loadLoop_eq_B sm cd og ks c
    · simp only [h1, if_false]
      exact loadLoop_eq_B sm cd og ks c

/-- Composing runs of the instrumented loop: if the first segment ends
without hitting the `break`, the loop continues into the second segment from
the cache the first one built. -/
theorem loadLoopB_append (sm : SizeModel) (cd : Codec) (og : String → OriginResult) :
    ∀ (ks1 : List String) (c c1 : Cache) (ks2 : List String),
      loadLoopB sm cd og ks1 c = .ok (c1, false) →
      loadLoopB sm cd og (ks1 ++ ks2) c = loadLoopB sm cd og ks2 c1
  | [], c, c1, ks2, h => by
    simp only [loadLoopB] at h
    cases h
    rfl
  | k :: ks1, c, c1, ks2, h => by
    simp only [loadLoopB] at h
    simp only [List.cons_append, loadLoopB]
    by_cases h1 : cacheSize sm c < CACHE_LIMIT
    · simp only [h1, if_true] at h ⊢
      cases hog : og k with
      | exc => rw [hog] at h; cases h
      | resp s b =>
        rw [hog] at h
        by_cases h2 : s = 200
        · subst h2
          simp only [if_true] at h ⊢
          by_cases h3 : cacheSize sm c + (cd.compress b).length > CACHE_LIMIT
          · simp only [h3, if_true] at h
            cases h
          · simp only [h3, if_false] at h ⊢
            exact loadLoopB_append sm cd og ks1 _ c1 ks2 h
        · simp only [h2, if_false] at h ⊢
          exact loadLoopB_append sm cd og ks1 c c1 ks2 h
    · simp only [h1, if_false] at h ⊢
      exact loadLoopB_append sm cd og ks1 c c1 ks2 h

/-- Every key present in the cache produced by the loading loop was either
already present initially or occurs in the processed key list. -/
theorem loadLoopB_keys (sm : SizeModel) (cd : Codec) (og : String → OriginResult) :
    ∀ (ks : List String) (c0 c : Cache) (b : Bool),
      loadLoopB sm cd og ks c0 = .ok (c, b) →
      ∀ j, (cacheFind c j).isSome = true →
        (cacheFind c0 j).isSome = true ∨ j ∈ ks
  | [], c0, c, b, h => by
    simp only [loadLoopB] at h
    cases h
    exact fun j hj => Or.inl hj
  | k :: ks, c0, c, b, h => by
    simp only [loadLoopB] at h
    by_cases h1 : cacheSize sm c0 < CACHE_LIMIT
    · simp only [h1, if_true] at h
      cases hog : og k with
      | exc => rw [hog] at h; cases h
      | resp s bd =>
        rw [hog] at h
        by_cases h2 : s = 200
        · subst h2
          simp only [if_true] at h
          by_cases h3 : cacheSize sm c0 + (cd.compress bd).length > CACHE_LIMIT
          · simp only [h3, if_true] at h
            cases h
            exact fun j hj => Or.inl hj
          · simp only [h3, if_false] at h
            intro j hj
            rcases loadLoopB_keys sm cd og ks _ c b h j hj with hfound | hmem
            · rw [cacheFind_insert] at hfound
              by_cases hjk : j = k
              · exact Or.inr (by simp [hjk])
              · rw [if_neg hjk] at hfound
                exact Or.inl hfound
            · exact Or.inr (by simp [hmem])
        · simp only [h2, if_false] at h
          intro j hj
          rcases loadLoopB_keys sm cd og ks c0 c b h j hj with hfound | hmem
          · exact Or.inl hfound
          · exact Or.inr (by simp [hmem])
    · simp only [h1, if_false] at h
      intro j hj
      rcases loadLoopB_keys sm cd og ks c0 c b h j hj with hfound | hmem
      · exact Or.inl hfound
      · exact Or.inr (by simp [hmem])

/-- Every value stored by the loading loop (beyond what was already cached)
is the compression of a body the origin served with status 200 for exactly
that key. -/
theorem loadLoopB_stored (sm : SizeModel) (cd : Codec) (og : String → OriginResult) :
    ∀ (ks : List String) (c0 c : Cache) (b : Bool),
      loadLoopB sm cd og ks c0 = .ok (c, b) →
      ∀ (k : String) (v : Bytes), cacheFind c k = some v →
        cacheFind c0 k = some v ∨
          ∃ body, og k = .resp 200 body ∧ v = cd.compress body
  | [], c0, c, b, h => by
    simp only [loadLoopB] at h
    cases h
    exact fun k v hv => Or.inl hv
  | k' :: ks, c0, c, b, h => by
    simp only [loadLoopB] at h
    by_cases h1 : cacheSize sm c0 < CACHE_LIMIT
    · simp only [h1, if_true] at h
      cases hog : og k' with
      | exc => rw [hog] at h; cases h
      | resp s bd =>
        rw [hog] at h
        by_cases h2 : s = 200
        · subst h2
          simp only [if_true] at h
          by_cases h3 : cacheSize sm c0 + (cd.compress bd).length > CACHE_LIMIT
          · simp only [h3, if_true] at h
            cases h
            exact fun k v hv => Or.inl hv
          · simp only [h3, if_false] at h
            intro k v hv
            rcases loadLoopB_stored sm cd og ks _ c b h k v hv with hfound | hnew
            · rw [cacheFind_insert] at hfound
              by_cases hkk : k = k'
              · subst hkk
                rw [if_pos rfl] at hfound
                exact Or.inr ⟨bd, hog, (Option.some_injective _ hfound).symm⟩
              · rw [if_neg hkk] at hfound
                exact Or.inl hfound
            · exact Or.inr hnew
        · simp only [h2, if_false] at h
          exact loadLoopB_stored sm cd og ks c0 c b h
    · simp only [h1, if_false] at h
      exact loadLoopB_stored sm cd og ks c0 c b h

/-- Invariant behind the capacity claim: whatever cache the loading loop
returns is either its starting cache or arose from one final insertion, and
that insertion was guarded: the measured size of the cache before it was
below the limit, and that size plus the byte length (only) of the inserted
compressed payload was at most the limit. -/
theorem loadLoop_last_guarded (sm : SizeModel) (cd : Codec) (og : String → OriginResult) :
    ∀ (ks : List String) (c0 c : Cache),
      loadLoop sm cd og ks c0 = .ok c →
      c = c0 ∨
        ∃ c' k v, c = cacheInsert c' k v ∧
          cacheSize sm c' < CACHE_LIMIT ∧
          cacheSize sm c' + v.length ≤ CACHE_LIMIT
  | [], c0, c, h => by
    simp only [loadLoop] at h
    cases h
    exact Or.inl rfl
  | k :: ks, c0, c, h => by
    simp only [loadLoop] at h
    by_cases h1 : cacheSize sm c0 < CACHE_LIMIT
    · simp only [h1, if_true] at h
      cases hog : og k with
      | exc => rw [hog] at h; cases h
      | resp s bd =>
        rw [hog] at h
        by_cases h2 : s = 200
        · subst h2
          simp only [if_true] at h
          by_cases h3 : cacheSize sm c0 + (cd.compress bd).length > CACHE_LIMIT
          · simp only [h3, if_true] at h
            cases h
            exact Or.inl rfl
          · simp only [h3, if_false] at h
            rcases loadLoop_last_guarded sm cd og ks _ c h with heq | hrest
            · exact Or.inr ⟨c0, k, cd.compress bd, heq, h1, by omega⟩
            · exact Or.inr hrest
        · simp only [h2, if_false] at h
          exact loadLoop_last_guarded sm cd og ks c0 c h
    · simp only [h1, if_false] at h
      exact loadLoop_last_guarded sm cd og ks c0 c h

/-! ### Path splitting lemmas -/

theorem splitChar_ne_nil (sep : Char) : ∀ l : List Char, splitChar sep l ≠ []
  | [] => by simp [splitChar]
  | c :: rest => by
    simp only [splitChar]
    rcases h : splitChar sep rest with _ | ⟨g, gs⟩
    · simp
    · by_cases hc : c = sep <;> simp [hc]

theorem splitChar_two_of_mem (sep : Char) :
    ∀ l : List Char, sep ∈ l → 2 ≤ (splitChar sep l).length
  | [], h => absurd h (List.not_mem_nil sep)
  | c :: rest, h => by
    simp only [splitChar]
    rcases hs : splitChar sep rest with _ | ⟨g, gs⟩
    · exact absurd hs (splitChar_ne_nil sep rest)
    · by_cases hc : c = sep
      · simp [hc]
      · have hmem : sep ∈ rest := by
          rcases List.mem_cons.1 h with h' | h'
          · exact absurd h'.symm hc
          · exact h'
        have h2 := splitChar_two_of_mem sep rest hmem
        rw [hs] at h2
        simp only [hc, if_false, List.length_cons] at h2 ⊢
        omega

/-- If the character list ends with the separator, the last group produced by
the split is empty (this is why a path ending in `/` derives the empty
content key). -/
theorem splitChar_getLast_sep (sep : Char) :
    ∀ l : List Char, l.getLast? = some sep → (splitChar sep l).getLastD [] = []
  | [], h => by simp at h
  | [c], h => by
    have hc : c = sep := by simpa using h
    subst hc
    simp [splitChar]
  | c :: c2 :: rest2, h => by
    have h' : (c2 :: rest2).getLast? = some sep := by
      rw [← h]
      exact (List.getLast?_cons_cons).symm
    have IH := splitChar_getLast_sep sep (c2 :: rest2) h'
    have hmem : sep ∈ c2 :: rest2 := by
      obtain ⟨hne, heq⟩ := List.mem_getLast?_eq_getLast (by rw [h']; exact rfl)
      rw [heq]
      exact List.getLast_mem hne
    have hlen := splitChar_two_of_mem sep (c2 :: rest2) hmem
    have hstep : splitChar sep (c :: c2 :: rest2) =
        match splitChar sep (c2 :: rest2) with
        | [] => [[]]
        | grp :: grps => if c = sep then [] :: grp :: grps else (c :: grp) :: grps := rfl
    rw [hstep]
    rcases hs : splitChar sep (c2 :: rest2) with _ | ⟨g, gs⟩
    · exact absurd hs (splitChar_ne_nil _ _)
    · rw [hs] at IH hlen
      rcases gs with _ | ⟨z, zs⟩
      · simp at hlen
      · by_cases hc : c = sep
        · simp only [hc, if_true]
          rw [List.getLastD_cons]
          simpa [List.getLastD_cons] using IH
        · simp only [hc, if_false]
          rw [List.getLastD_cons]
          simpa [List.getLastD_cons] using IH

/-- A path whose final character is `/` derives the empty content key. -/
theorem lastSegment_slash (p : String) (hp : p.data.getLast? = some '/') :
    lastSegment p = "" := by
  unfold lastSegment pathSegments
  have hne := splitChar_ne_nil '/' p.data
  have hld := splitChar_getLast_sep '/' p.data hp
  rw [List.getLastD_eq_getLast? ] at hld ⊢
  rw [List.getLast?_map]
  rcases hq : (splitChar '/' p.data).getLast? with _ | x
  · exact absurd (List.getLast?_eq_none_iff.1 hq) hne
  · rw [hq] at hld
    simp only [Option.getD_some] at hld
    subst hld
    rfl

/-! ### Claim C2: matching DNS query (type 1, name equals the service name
after stripping the trailing terminator) always gets a response echoing the
message id and the question, answering with the source address. -/

/-- C2.  For every DNS query with question type 1 whose question name, minus
its trailing dot, equals the configured service name, `parse_dig_query`
returns (packs) a response whose message id equals the query's, whose
question equals the query's question field-for-field, and whose single answer
record binds the queried name to the chosen replica address — in the
reference policy the source address the query arrived from. -/
theorem dns_match_response (NAME : String) (query : DNSQueryM) (src : String)
    (ht : query.q.qtype = 1) (hn : strDropLast query.q.qname = NAME) :
    ∃ r, parse_dig_query NAME query src = some r ∧
      r.msgId = query.msgId ∧ r.q = query.q ∧
      r.ansName = query.q.qname ∧ r.ansAddr = src := by
  unfold parse_dig_query
  rw [if_pos ⟨ht, hn⟩]
  exact ⟨_, rfl, rfl, rfl, rfl, rfl⟩

/-- A concrete matching query for the C2 witness. -/
def qMatch : DNSQueryM := ⟨7, ⟨"example.com.", 1, 1⟩⟩

theorem dns_match_response_witness :
    (qMatch.q.qtype = 1 ∧ strDropLast qMatch.q.qname = "example.com") ∧
    ∃ r, parse_dig_query "example.com" qMatch "9.9.9.9" = some r ∧
      r.msgId = qMatch.msgId ∧ r.q = qMatch.q ∧
      r.ansName = qMatch.q.qname ∧ r.ansAddr = "9.9.9.9" :=
  ⟨⟨rfl, by decide⟩,
    dns_match_response "example.com" qMatch "9.9.9.9" rfl (by decide)⟩

/-! ### Claim C3: non-matching DNS query.

`parse_dig_query` indeed returns no response for a mismatched name or
non-address type — but the serving loop `run` then unconditionally calls
`self.udp_socket.sendto(dig_response, addr)` (line 83) with `dig_response =
None`, which raises `TypeError`; the exception is uncaught, so the loop does
NOT continue with subsequent datagrams: it crashes.  The claim (and `run`'s
own docstring, "continuously parsing incoming dig queries") describe the
intent; the code is a slip. -/

/-- C3 (code bug exhibit).  For every non-matching query no response object
exists, and the serving-loop step dies instead of silently continuing. -/
theorem dns_nonmatch_no_reply_crashes (NAME : String) (query : DNSQueryM)
    (src : String)
    (h : ¬ (query.q.qtype = 1 ∧ strDropLast query.q.qname = NAME)) :
    parse_dig_query NAME query src = none ∧
      runStep NAME query src = .error () := by
  have hp : parse_dig_query NAME query src = none := by
    unfold parse_dig_query
    rw [if_neg h]
  refine ⟨hp, ?_⟩
  unfold runStep
  rw [hp]

/-- A concrete non-matching query (type 2 instead of 1). -/
def qMismatch : DNSQueryM := ⟨7, ⟨"example.com.", 2, 1⟩⟩

theorem dns_nonmatch_no_reply_crashes_witness :
    (¬ (qMismatch.q.qtype = 1 ∧ strDropLast qMismatch.q.qname = "example.com")) ∧
    (parse_dig_query "example.com" qMismatch "1.2.3.4" = none ∧
      runStep "example.com" qMismatch "1.2.3.4" = .error ()) :=
  ⟨by decide,
    dns_nonmatch_no_reply_crashes "example.com" qMismatch "1.2.3.4" (by decide)⟩

/-! ### Claim C7: the grading beacon.

The beacon branch sends status 204 and performs no cache lookup and no origin
fetch (the trace is a single `sendResponse`), but the body it writes is NOT
empty: line 142 writes the bytes of `'Response code: NO CONTENT(204)'`,
contradicting the branch's own docstring ("reply with HTTP code - 204 (empty
response)") and the spec. -/

/-- C7 (code bug exhibit).  For every cache and origin, the response to
`/grading/beacon` is exactly one 204 `sendResponse` action — so no cache
lookup and no origin fetch occur — but its body is the non-empty encoded
diagnostic string rather than the empty body the claim states. -/
theorem beacon_204_trace (cd : Codec) (cache : Cache)
    (og : String → OriginResult) :
    do_GET cd "/grading/beacon" cache og =
      [HAction.sendResponse 204 (strBytes beaconMsg)] ∧
    strBytes beaconMsg ≠ [] := by
  constructor
  · unfold do_GET
    rw [if_pos rfl]
  · decide

/-! ### Claim C8: nested path gets a 400 and then the handler continues. -/

/-- C8.  For every non-beacon request whose path splits into more than two
slash-delimited parts, the trace starts with a 400 `send_error` and then —
because line 147 has no early return — continues with the normal handling of
the derived content key (the final path segment), beginning with the cache
lookup. -/
theorem nested_path_400_then_continue (cd : Codec) (path : String)
    (cache : Cache) (og : String → OriginResult)
    (hb : path ≠ "/grading/beacon")
    (hseg : (pathSegments path).length > 2) :
    do_GET cd path cache og =
      HAction.sendError 400 :: HAction.cacheLookup (lastSegment path) ::
        (afterValidation cd (lastSegment path) cache og).tail := by
  unfold do_GET
  rw [if_neg hb, if_pos hseg]
  rfl

/-- The identity codec (for concrete instantiations): compression and
decompression both the identity. -/
def cdId : Codec := ⟨fun b => b, fun b => b⟩

/-- An origin that always raises (for concrete instantiations). -/
def ogExc : String → OriginResult := fun _ => .exc

theorem nested_path_400_then_continue_witness :
    (("/a/b" : String) ≠ "/grading/beacon" ∧ (pathSegments "/a/b").length > 2) ∧
    do_GET cdId "/a/b" [] ogExc =
      HAction.sendError 400 :: HAction.cacheLookup (lastSegment "/a/b") ::
        (afterValidation cdId (lastSegment "/a/b") [] ogExc).tail :=
  ⟨⟨by decide, by decide⟩,
    nested_path_400_then_continue cdId "/a/b" [] ogExc (by decide) (by decide)⟩

/-! ### Claim C10: root path / trailing slash derives the empty key, which is
looked up like any other key and fetched from the origin on a miss. -/

/-- C10.  Any non-beacon path ending in a slash derives the empty string as
content key, and its handling is the ordinary one for that key: (possibly a
400 for a nested path, then) the normal post-validation handling of the empty
key, which on a miss performs the cache lookup of `""` followed by an origin
GET for the empty key; for the root path `/` in particular (two split
segments, so no 400) the trace is exactly the normal handling — no rejection
and no special-casing. -/
theorem root_path_empty_key (cd : Codec) (p : String) (cache : Cache)
    (og : String → OriginResult)
    (hp : p.data.getLast? = some '/')
    (hb : p ≠ "/grading/beacon") :
    lastSegment p = "" ∧
    do_GET cd p cache og =
      (if (pathSegments p).length > 2 then [HAction.sendError 400] else []) ++
        afterValidation cd "" cache og ∧
    (cacheFind cache "" = none →
      afterValidation cd "" cache og =
        HAction.cacheLookup "" :: HAction.originGet "" ::
          (afterValidation cd "" cache og).tail.tail) ∧
    do_GET cd "/" cache og = afterValidation cd "" cache og := by
  refine ⟨lastSegment_slash p hp, ?_, ?_, ?_⟩
  · unfold do_GET
    rw [if_neg hb, lastSegment_slash p hp]
  · intro hmiss
    unfold afterValidation
    rw [hmiss]
    rfl
  · unfold do_GET
    rw [if_neg (by decide : ("/" : String) ≠ "/grading/beacon")]
    rw [if_neg (by decide : ¬ (pathSegments "/").length > 2)]
    rw [List.nil_append]
    show afterValidation cd (lastSegment "/") cache og = _
    rw [show lastSegment "/" = "" from by decide]

theorem root_path_empty_key_witness :
    (("/sub/" : String).data.getLast? = some '/' ∧
      ("/sub/" : String) ≠ "/grading/beacon" ∧
      cacheFind [("x", [1])] "" = none) ∧
    (lastSegment "/sub/" = "" ∧
      do_GET cdId "/sub/" [("x", [1])] ogExc =
        (if (pathSegments "/sub/").length > 2 then [HAction.sendError 400] else []) ++
          afterValidation cdId "" [("x", [1])] ogExc ∧
      afterValidation cdId "" [("x", [1])] ogExc =
        HAction.cacheLookup "" :: HAction.originGet "" ::
          (afterValidation cdId "" [("x", [1])] ogExc).tail.tail ∧
      do_GET cdId "/" [("x", [1])] ogExc = afterValidation cdId "" [("x", [1])] ogExc) := by
  have h := root_path_empty_key cdId "/sub/" [("x", [1])] ogExc (by decide) (by decide)
  exact ⟨⟨by decide, by decide, by decide⟩, h.1, h.2.1, h.2.2.1 (by decide), h.2.2.2⟩

/-! ### Concrete model instances for witnesses and counterexamples -/

/-- A trivial size model: only the payload byte length counts. -/
def smToy : SizeModel := ⟨fun _ => 0, fun _ => 0, fun n => n⟩

/-- A CPython-like size model (64-bit CPython 3.8+): `sys.getsizeof({}) = 64`,
a small non-empty dict measures 232, an ASCII `str` measures its length plus
49, a `bytes` object measures its length plus 33. -/
def smPy : SizeModel :=
  ⟨fun n => if n = 0 then 64 else 232, fun s => s.length + 49, fun n => n + 33⟩

/-- An origin that answers 404 to everything. -/
def og404 : String → OriginResult := fun _ => .resp 404 []

/-- An origin that answers 200 with body `[1, 2, 3]` to everything. -/
def og200 : String → OriginResult := fun _ => .resp 200 [1, 2, 3]

/-- An origin that answers 200 with an empty body to everything. -/
def ogAll : String → OriginResult := fun _ => .resp 200 []

/-- An all-zero payload of the given byte length (kept folded in proofs so
that only its length, never the list itself, is computed). -/
def padBytes (n : Nat) : Bytes := List.replicate n 0

theorem padBytes_length (n : Nat) : (padBytes n).length = n :=
  List.length_replicate n 0

theorem cacheSize_nil (sm : SizeModel) : cacheSize sm [] = sm.dictSize 0 := rfl

theorem cacheSize_singleton (sm : SizeModel) (k : String) (v : Bytes) :
    cacheSize sm [(k, v)] =
      sm.dictSize 1 + (sm.strSize k + sm.bytesSize v.length) := rfl

/-- An origin serving one huge payload for key `A`: 19 999 936 bytes, i.e.
`CACHE_LIMIT` minus the 64 bytes of the empty dict. -/
def ogBig : String → OriginResult :=
  fun k => if k = "A" then .resp 200 (padBytes 19999936) else .exc

/-- The cache `ogBig` loading produces. -/
def cBig : Cache := [("A", padBytes 19999936)]

/-- A codec whose compression always outputs 10 000 001 bytes. -/
def cdBig : Codec := ⟨fun _ => padBytes 10000001, fun b => b⟩

/-- The cache the `cdBig`/`ogAll` loading run stops with. -/
def cDup : Cache := [("A", padBytes 10000001)]

theorem cacheSize_smPy_cBig : cacheSize smPy cBig = 20000251 := by
  show cacheSize smPy [("A", padBytes 19999936)] = 20000251
  rw [cacheSize_singleton, padBytes_length]
  rw [show smPy.dictSize 1 = 232 from rfl, show smPy.strSize "A" = 50 from rfl,
    show smPy.bytesSize 19999936 = 19999969 from rfl]

theorem cacheSize_smToy_cDup : cacheSize smToy cDup = 10000001 := by
  show cacheSize smToy [("A", padBytes 10000001)] = 10000001
  rw [cacheSize_singleton, padBytes_length]
  rw [show smToy.dictSize 1 = 0 from rfl, show smToy.strSize "A" = 0 from rfl,
    show smToy.bytesSize 10000001 = 10000001 from rfl]

/-! Step equations for the loading loop, with symbolic arguments (so that
rewriting with them never forces evaluation of large concrete payloads). -/

theorem loadLoop_cons_insert (sm : SizeModel) (cd : Codec)
    (og : String → OriginResult) (k : String) (ks : List String) (c : Cache)
    (b : Bytes)
    (h1 : cacheSize sm c < CACHE_LIMIT)
    (hog : og k = .resp 200 b)
    (h2 : ¬ (cacheSize sm c + (cd.compress b).length > CACHE_LIMIT)) :
    loadLoop sm cd og (k :: ks) c =
      loadLoop sm cd og ks (cacheInsert c k (cd.compress b)) := by
  simp only [loadLoop]
  rw [if_pos h1, hog]
  simp [h2]

theorem loadLoop_cons_break (sm : SizeModel) (cd : Codec)
    (og : String → OriginResult) (k : String) (ks : List String) (c : Cache)
    (b : Bytes)
    (h1 : cacheSize sm c < CACHE_LIMIT)
    (hog : og k = .resp 200 b)
    (h2 : cacheSize sm c + (cd.compress b).length > CACHE_LIMIT) :
    loadLoop sm cd og (k :: ks) c = .ok c := by
  simp only [loadLoop]
  rw [if_pos h1, hog]
  simp [h2]

theorem loadLoopB_cons_insert (sm : SizeModel) (cd : Codec)
    (og : String → OriginResult) (k : String) (ks : List String) (c : Cache)
    (b : Bytes)
    (h1 : cacheSize sm c < CACHE_LIMIT)
    (hog : og k = .resp 200 b)
    (h2 : ¬ (cacheSize sm c + (cd.compress b).length > CACHE_LIMIT)) :
    loadLoopB sm cd og (k :: ks) c =
      loadLoopB sm cd og ks (cacheInsert c k (cd.compress b)) := by
  simp only [loadLoopB]
  rw [if_pos h1, hog]
  simp [h2]

theorem loadLoopB_cons_break (sm : SizeModel) (cd : Codec)
    (og : String → OriginResult) (k : String) (ks : List String) (c : Cache)
    (b : Bytes)
    (h1 : cacheSize sm c < CACHE_LIMIT)
    (hog : og k = .resp 200 b)
    (h2 : cacheSize sm c + (cd.compress b).length > CACHE_LIMIT) :
    loadLoopB sm cd og (k :: ks) c = .ok (c, true) := by
  simp only [loadLoopB]
  rw [if_pos h1, hog]
  simp [h2]

/-! ### Claim C1: the capacity invariant.

The claim is false on the code: the break check at line 72 adds only
`len(compressed_response)` to the measured size, but storing the entry also
adds the `sys.getsizeof` overhead of the value bytes object, the key string,
and the dict's own growth — none of which the check counts.  With the
CPython sizes, one payload of `CACHE_LIMIT - 64` bytes passes the check yet
leaves the cache measuring 20 000 251 > 20 000 000 bytes
(`load_exceeds_limit_cx`).  What does hold: every insertion the loader
performs is guarded, so the final measured size exceeds the budget by at most
the measurement overhead of the last inserted entry
(`load_capacity_guarded`). -/

/-- C1 counterexample: a loading run whose final cache, measured by the
recursive size walker over the whole dictionary, exceeds the capacity
budget. -/
theorem load_exceeds_limit_cx :
    load_popularity_data smPy cdId ogBig ["A"] = .ok cBig ∧
    CACHE_LIMIT < get_cache_size (cacheHeap smPy cBig) 0 := by
  constructor
  · show loadLoop smPy cdId ogBig ["A"] [] = .ok cBig
    have hguard : cacheSize smPy ([] : Cache) < CACHE_LIMIT := by
      rw [cacheSize_nil]
      norm_num [smPy, CACHE_LIMIT]
    have hog : ogBig "A" = .resp 200 (padBytes 19999936) := by
      simp [ogBig]
    have hl : (cdId.compress (padBytes 19999936)).length = 19999936 :=
      padBytes_length 19999936
    have hnb : ¬ (cacheSize smPy ([] : Cache) +
        (cdId.compress (padBytes 19999936)).length > CACHE_LIMIT) := by
      rw [cacheSize_nil, hl]
      norm_num [smPy, CACHE_LIMIT]
    rw [loadLoop_cons_insert smPy cdId ogBig "A" [] [] (padBytes 19999936)
      hguard hog hnb]
    rfl
  · rw [get_cache_size_cacheHeap, cacheSize_smPy_cBig]
    norm_num [CACHE_LIMIT]

/-- C1 amended.  For every size model, codec, origin and key sequence, the
cache the loader finishes with is either still empty, or was produced by a
final guarded insertion: measured by the recursive size walker, the cache
just before that insertion was below the 20 000 000-byte budget and its
measured size plus the byte length of the inserted compressed payload was at
most the budget.  (The final measured size itself can exceed the budget by
the uncounted key/value/container overhead — see `load_exceeds_limit_cx`.) -/
theorem load_capacity_guarded (sm : SizeModel) (cd : Codec)
    (og : String → OriginResult) (ks : List String) (c : Cache)
    (h : load_popularity_data sm cd og ks = .ok c) :
    c = [] ∨ ∃ c' k v, c = cacheInsert c' k v ∧
      get_cache_size (cacheHeap sm c') 0 < CACHE_LIMIT ∧
      get_cache_size (cacheHeap sm c') 0 + v.length ≤ CACHE_LIMIT := by
  rcases loadLoop_last_guarded sm cd og ks [] c h with h0 | ⟨c', k, v, he, hlt, hle⟩
  · exact Or.inl h0
  · refine Or.inr ⟨c', k, v, he, ?_, ?_⟩
    · rw [get_cache_size_cacheHeap]
      exact hlt
    · rw [get_cache_size_cacheHeap]
      exact hle

theorem load_capacity_guarded_witness :
    load_popularity_data smToy cdId og404 ["A"] = .ok [] ∧
    (([] : Cache) = [] ∨ ∃ c' k v, ([] : Cache) = cacheInsert c' k v ∧
      get_cache_size (cacheHeap smToy c') 0 < CACHE_LIMIT ∧
      get_cache_size (cacheHeap smToy c') 0 + v.length ≤ CACHE_LIMIT) :=
  ⟨rfl, load_capacity_guarded smToy cdId og404 ["A"] [] rfl⟩

/-! ### Claim C4: loading stops at the first overflowing key.

The break at line 73 does end the whole load, and the final cache is exactly
what was built before the stopping key.  But "that key and every key after it
are absent from the cache" fails when the same key also occurs (and was
cached) before the stopping point: `load_stop_duplicate_cx` runs the key
sequence `A, B, A` where `B` triggers the break — the third element `A`
comes after the stopping key, yet it is in the final cache. -/

/-- C4 counterexample: a key occurring after the stopping key that is present
in the final cache (because the same key was cached before the stop). -/
theorem load_stop_duplicate_cx :
    load_popularity_data smToy cdBig ogAll ["A", "B", "A"] = .ok cDup ∧
    (cacheFind cDup "A").isSome = true := by
  constructor
  · show loadLoop smToy cdBig ogAll ["A", "B", "A"] [] = .ok cDup
    have hguard : cacheSize smToy ([] : Cache) < CACHE_LIMIT := by
      rw [cacheSize_nil]
      norm_num [smToy, CACHE_LIMIT]
    have hl0 : (cdBig.compress []).length = 10000001 := padBytes_length 10000001
    have hnb : ¬ (cacheSize smToy ([] : Cache) +
        (cdBig.compress []).length > CACHE_LIMIT) := by
      rw [cacheSize_nil, hl0]
      norm_num [smToy, CACHE_LIMIT]
    have hguard2 : cacheSize smToy cDup < CACHE_LIMIT := by
      rw [cacheSize_smToy_cDup]
      norm_num [CACHE_LIMIT]
    have hbrk : cacheSize smToy cDup + (cdBig.compress []).length > CACHE_LIMIT := by
      rw [cacheSize_smToy_cDup, hl0]
      norm_num [CACHE_LIMIT]
    rw [loadLoop_cons_insert smToy cdBig ogAll "A" ["B", "A"] [] [] hguard rfl hnb]
    have hins : cacheInsert [] "A" (cdBig.compress []) = cDup := rfl
    rw [hins]
    rw [loadLoop_cons_break smToy cdBig ogAll "B" ["A"] cDup [] hguard2 rfl hbrk]
  · simp [cacheFind, cDup]

/-- C4 amended.  If the loader, having built cache `c1` without yet breaking,
meets a key whose successfully fetched compressed payload trips the break
check (measured size plus payload length over the budget), the entire load
stops there: the final cache is exactly `c1`, and every key at or after the
stopping point is absent from the cache unless the same key also occurred
(and was cached) earlier in the sequence — every cached key comes from the
prefix before the stop. -/
theorem load_stops_at_first_overflow (sm : SizeModel) (cd : Codec)
    (og : String → OriginResult) (ks1 : List String) (k : String)
    (ks2 : List String) (c1 : Cache) (body : Bytes)
    (h1 : loadLoopB sm cd og ks1 [] = .ok (c1, false))
    (h2 : cacheSize sm c1 < CACHE_LIMIT)
    (h3 : og k = .resp 200 body)
    (h4 : cacheSize sm c1 + (cd.compress body).length > CACHE_LIMIT) :
    load_popularity_data sm cd og (ks1 ++ k :: ks2) = .ok c1 ∧
    ∀ j, (cacheFind c1 j).isSome = true → j ∈ ks1 := by
  constructor
  · show loadLoop sm cd og (ks1 ++ k :: ks2) [] = .ok c1
    rw [loadLoop_eq_B]
    rw [loadLoopB_append sm cd og ks1 [] c1 (k :: ks2) h1]
    rw [loadLoopB_cons_break sm cd og k ks2 c1 body h2 h3 h4]
    rfl
  · intro j hj
    rcases loadLoopB_keys sm cd og ks1 [] c1 false h1 j hj with hin | hmem
    · simp [cacheFind] at hin
    · exact hmem

theorem load_stops_at_first_overflow_witness :
    (loadLoopB smToy cdBig ogAll ["A"] [] = .ok (cDup, false) ∧
      cacheSize smToy cDup < CACHE_LIMIT ∧
      ogAll "B" = .resp 200 [] ∧
      cacheSize smToy cDup + (cdBig.compress []).length > CACHE_LIMIT) ∧
    load_popularity_data smToy cdBig ogAll (["A"] ++ "B" :: ["C"]) = .ok cDup := by
  have hguard : cacheSize smToy ([] : Cache) < CACHE_LIMIT := by
    rw [cacheSize_nil]
    norm_num [smToy, CACHE_LIMIT]
  have hl0 : (cdBig.compress []).length = 10000001 := padBytes_length 10000001
  have hnb : ¬ (cacheSize smToy ([] : Cache) +
      (cdBig.compress []).length > CACHE_LIMIT) := by
    rw [cacheSize_nil, hl0]
    norm_num [smToy, CACHE_LIMIT]
  have h1 : loadLoopB smToy cdBig ogAll ["A"] [] = .ok (cDup, false) := by
    rw [loadLoopB_cons_insert smToy cdBig ogAll "A" [] [] [] hguard rfl hnb]
    rfl
  have h2 : cacheSize smToy cDup < CACHE_LIMIT := by
    rw [cacheSize_smToy_cDup]
    norm_num [CACHE_LIMIT]
  have h3 : ogAll "B" = .resp 200 [] := rfl
  have h4 : cacheSize smToy cDup + (cdBig.compress []).length > CACHE_LIMIT := by
    rw [cacheSize_smToy_cDup, hl0]
    norm_num [CACHE_LIMIT]
  exact ⟨⟨h1, h2, h3, h4⟩,
    (load_stops_at_first_overflow smToy cdBig ogAll ["A"] "B" ["C"] cDup []
      h1 h2 h3 h4).1⟩

/-! ### Claim C5: preload failure recovery.

A non-success origin status is indeed recovered locally (the key is skipped,
no retry, the loader continues), but an origin connectivity failure is NOT:
`load_popularity_data` wraps `requests.get` (line 64) in no try/except, so
the raised exception propagates and aborts the whole loader —
`load_exc_aborts_cx` exhibits the abort, refuting "no preload error ever
aborts the loader". -/

/-- C5 counterexample: an origin connectivity failure on the very first key
aborts the loader (the exception escapes `load_popularity_data`). -/
theorem load_exc_aborts_cx :
    load_popularity_data smToy cdId ogExc ["A"] = .error () := rfl

/-- C5 amended.  A non-success origin status for a key is recovered locally:
the key is omitted from the cache with no retry, and the loader continues
with the next key.  An origin connectivity failure (raised exception),
however, aborts the entire loader whenever it occurs (i.e. whenever the key
is fetched at all, which happens exactly when the size guard passes). -/
theorem load_skip_or_abort (sm : SizeModel) (cd : Codec)
    (og : String → OriginResult) (k : String) (ks : List String) (c : Cache) :
    (∀ s b, og k = .resp s b → s ≠ 200 →
      loadLoop sm cd og (k :: ks) c = loadLoop sm cd og ks c) ∧
    (og k = .exc → cacheSize sm c < CACHE_LIMIT →
      loadLoop sm cd og (k :: ks) c = .error ()) := by
  constructor
  · intro s b hog hs
    simp only [loadLoop]
    by_cases h1 : cacheSize sm c < CACHE_LIMIT
    · rw [if_pos h1, hog]
      dsimp only
      rw [if_neg hs]
    · rw [if_neg h1]
  · intro hog h1
    simp only [loadLoop]
    rw [if_pos h1, hog]

theorem load_skip_or_abort_witness :
    (og404 "A" = .resp 404 [] ∧ (404 : Nat) ≠ 200 ∧
      loadLoop smToy cdId og404 ["A"] [] = loadLoop smToy cdId og404 [] []) ∧
    (ogExc "A" = .exc ∧ cacheSize smToy [] < CACHE_LIMIT ∧
      loadLoop smToy cdId ogExc ["A"] [] = .error ()) :=
  ⟨⟨rfl, by decide,
      (load_skip_or_abort smToy cdId og404 "A" [] []).1 404 [] rfl (by decide)⟩,
    ⟨rfl, by decide,
      (load_skip_or_abort smToy cdId ogExc "A" [] []).2 rfl (by decide)⟩⟩

/-! ### Claim C6: compress-then-decompress round trip on cached entries. -/

/-- C6.  Under the round-trip law for the external compression pair, every
entry the Popularity Loader stored decompresses — exactly as the cache-hit
branch of `do_GET` decompresses it — to the origin response body fetched for
that key at load time, and the hit branch's trace sends precisely that body
with status 200. -/
theorem cached_payload_roundtrip (sm : SizeModel) (cd : Codec)
    (og : String → OriginResult) (ks : List String) (c : Cache)
    (k : String) (v : Bytes)
    (hrt : ∀ b, cd.decompress (cd.compress b) = b)
    (hload : load_popularity_data sm cd og ks = .ok c)
    (hfind : cacheFind c k = some v) :
    ∃ body, og k = .resp 200 body ∧ cd.decompress v = body ∧
      afterValidation cd k c og =
        [HAction.cacheLookup k, HAction.sendResponse 200 body] := by
  have hB : ∃ b, loadLoopB sm cd og ks [] = .ok (c, b) := by
    rw [load_popularity_data, loadLoop_eq_B] at hload
    rcases hE : loadLoopB sm cd og ks [] with e | ⟨c', b⟩
    · rw [hE] at hload
      cases hload
    · rw [hE] at hload
      simp only [Except.map] at hload
      cases hload
      exact ⟨b, rfl⟩
  obtain ⟨b, hB⟩ := hB
  rcases loadLoopB_stored sm cd og ks [] c b hB k v hfind with h0 | ⟨body, hog, hv⟩
  · simp [cacheFind] at h0
  · refine ⟨body, hog, ?_, ?_⟩
    · rw [hv, hrt]
    · unfold afterValidation
      rw [hfind]
      dsimp only
      rw [hv, hrt]

theorem cached_payload_roundtrip_witness :
    ((∀ b, cdId.decompress (cdId.compress b) = b) ∧
      load_popularity_data smToy cdId og200 ["A"] = .ok [("A", [1, 2, 3])] ∧
      cacheFind [("A", [1, 2, 3])] "A" = some [1, 2, 3]) ∧
    ∃ body, og200 "A" = .resp 200 body ∧ cdId.decompress [1, 2, 3] = body ∧
      afterValidation cdId "A" [("A", [1, 2, 3])] og200 =
        [HAction.cacheLookup "A", HAction.sendResponse 200 body] :=
  ⟨⟨fun _ => rfl, rfl, by decide⟩,
    cached_payload_roundtrip smToy cdId og200 ["A"] [("A", [1, 2, 3])] "A"
      [1, 2, 3] (fun _ => rfl) rfl (by decide)⟩

/-! ### Claim C9: the recursive size walker is total and counts nothing
twice. -/

/-- C9.  On every object graph — shared and self-referential structure
included — the recursive size measurement is a well-defined total function:
(1) any fuel beyond the walker's structural bound computes the same value as
`get_cache_size` (the recursion needs only boundedly many steps, so it
cannot loop forever); (2) an identity already in `seen` contributes exactly
zero and leaves the visited set unchanged on a repeat visit; and (3) the
measured size is the sum of the base sizes of a duplicate-free list of
visited identities — no object's size is ever counted twice. -/
theorem get_cache_size_total_once (h : PyHeap) (i : Nat) :
    (∀ f, h.objs.length + 1 ≤ f →
      (walkSize h f i []).1 = get_cache_size h i) ∧
    (∀ (f : Nat) (seen : List Nat), i ∈ seen →
      walkSize h f i seen = (0, seen)) ∧
    (∃ visited : List Nat, visited.Nodup ∧
      walkSize h (h.objs.length + 1) i [] = ((visited.map h.sizeof).sum, visited) ∧
      get_cache_size h i = (visited.map h.sizeof).sum) := by
  refine ⟨?_, ?_, ?_⟩
  · intro f hf
    unfold get_cache_size
    have hu : unvisited h [] < h.objs.length + 1 :=
      Nat.lt_succ_of_le (unvisited_le h [])
    rw [walkSize_fuel_stable h (h.objs.length + 1) f i [] hu hf]
  · intro f seen hmem
    cases f with
    | zero => rfl
    | succ f =>
      rw [walkSize_succ]
      rw [if_pos hmem]
  · obtain ⟨new, he, hnd, -⟩ := walkSize_out h (h.objs.length + 1) i []
    refine ⟨new, hnd, ?_, ?_⟩
    · rw [he]
      simp
    · unfold get_cache_size
      rw [he]

/-- A self-referential heap: identity 0 is a dict whose single value is the
dict itself (`d = {"k": d}` in Python), with key identity 1. -/
def hCyc : PyHeap := ⟨[(0, PyObj.pdict [(1, 0)])], fun j => j + 10⟩

theorem get_cache_size_total_once_witness :
    (hCyc.objs.length + 1 ≤ 9 ∧ (walkSize hCyc 9 0 []).1 = get_cache_size hCyc 0) ∧
    ((0 : Nat) ∈ [0] ∧ walkSize hCyc 5 0 [0] = (0, [0])) :=
  ⟨⟨by decide, (get_cache_size_total_once hCyc 0).1 9 (by decide)⟩,
    ⟨by decide, (get_cache_size_total_once hCyc 0).2.1 5 [0] (by decide)⟩⟩

example : cacheInsert [("a", [1])] "b" [2] = [("a", [1]), ("b", [2])] := by decide
example : cacheFind [("a", [1]), ("b", [2])] "b" = some [2] := by decide
example : pathSegments "/a/b" = ["", "a", "b"] := by decide
example : pathSegments "/" = ["", ""] := by decide
example : lastSegment "/cat" = "cat" := by decide
example : strDropLast "example.com." = "example.com" := by decide
